import Mathlib

/-!
Verification of the text-translation and OCR language-detection core of the
TTS_test Streamlit application (`src/streamlit_app.py`).

Python text is modelled as `List Char`; the external services (the
`GoogleTranslator` provider, `pytesseract.image_to_string`, and
`langdetect.detect`) are abstracted as function parameters, with
`Except`/`Option` results modelling raised exceptions.
-/

namespace TTS

/-- A Python `str`, modelled as its sequence of characters. -/
abbrev Str : Type := List Char

/-- The paragraph separator `"\n\n"` used by `translate_text`. -/
def sep : Str := ['\n', '\n']

/-- `max_length = 4500` from `translate_text`. -/
def maxLength : Nat := 4500

/-- The ASCII whitespace characters removed by Python's `str.strip()`
(space, tab, newline, carriage return, vertical tab, form feed). -/
def isPySpace (c : Char) : Bool :=
  c = ' ' || c = '\t' || c = '\n' || c = '\r' || c.toNat = 11 || c.toNat = 12

/-- Python `str.strip()`: remove leading and trailing whitespace. -/
def strip (s : Str) : Str :=
  ((s.dropWhile isPySpace).reverse.dropWhile isPySpace).reverse

/-- Python `text.split('\n\n')`: split at the leftmost occurrences of the
two-character separator, non-overlapping, keeping empty pieces. -/
def splitPar : Str → List Str
  | [] => [[]]
  | '\n' :: '\n' :: rest => [] :: splitPar rest
  | c :: rest =>
    match splitPar rest with
    | [] => [[c]]
    | p :: ps => (c :: p) :: ps

/-- Python's join with the paragraph separator: `"\n\n".join(l)`. -/
def joinPar : List Str → Str
  | [] => []
  | [p] => p
  | p :: ps => p ++ sep ++ joinPar ps

/-- The chunking loop of `translate_text` (its `else` branch), with the
provider abstracted away: it records, in order, the chunks the loop flushes
to the provider.  `cur` is `current_chunk`.  A paragraph is appended to
`cur` (followed by the separator) when `len(current_chunk) + len(para) <
max_length`; otherwise a nonempty `cur` is flushed as a completed chunk and
`cur` restarts as `para + "\n\n"`.  The final nonempty `cur` is flushed
after the loop. -/
def packLoop : List Str → Str → List Str
  | [], cur => if cur = [] then [] else [cur]
  | p :: ps, cur =>
    if cur.length + p.length < maxLength then
      packLoop ps (cur ++ p ++ sep)
    else if cur = [] then
      packLoop ps (p ++ sep)
    else
      cur :: packLoop ps (p ++ sep)

/-- The chunk decomposition of `text` performed by `translate_text`'s
chunking branch. -/
def chunks (text : Str) : List Str := packLoop (splitPar text) []

/-- The chunking loop of `translate_text` with the provider `tr` applied to
each flushed chunk, exactly as in the source: `acc` is
`translated_paragraphs`, `cur` is `current_chunk`, and a provider exception
(`Except.error`) aborts the loop at once. -/
def transLoop (tr : Str → Except String Str) :
    List Str → List Str → Str → Except String (List Str)
  | [], acc, cur =>
    if cur = [] then Except.ok acc
    else (tr cur).map (fun t => acc ++ [t])
  | p :: ps, acc, cur =>
    if cur.length + p.length < maxLength then
      transLoop tr ps acc (cur ++ p ++ sep)
    else if cur = [] then
      transLoop tr ps acc (p ++ sep)
    else
      match tr cur with
      | Except.ok t => transLoop tr ps (acc ++ [t]) (p ++ sep)
      | Except.error e => Except.error e

/-- `translate_text(text, target_lang)` with the `GoogleTranslator`
provider abstracted as `tr` (`Except.error` models a raised exception;
`target_lang` only parametrizes the provider, so it is folded into `tr`).
Text of length at most `max_length` is translated by a single call;
longer text is split on `'\n\n'` and translated chunk by chunk, the
results joined with `'\n\n'`.  Any exception is re-raised as
`Exception("Translation error: " + str(e))`. -/
def translate_text (tr : Str → Except String Str) (text : Str) :
    Except String Str :=
  match
    (if text.length ≤ maxLength then tr text
     else (transLoop tr (splitPar text) [] []).map joinPar) with
  | Except.ok r => Except.ok r
  | Except.error e => Except.error ("Translation error: " ++ e)

/-- The payloads `translate_text`'s chunking loop passes to the provider,
in order, stopping after the payload whose call raises (the exception
aborts the loop). -/
def transLoopCalls (tr : Str → Except String Str) : List Str → Str → List Str
  | [], cur => if cur = [] then [] else [cur]
  | p :: ps, cur =>
    if cur.length + p.length < maxLength then
      transLoopCalls tr ps (cur ++ p ++ sep)
    else if cur = [] then
      transLoopCalls tr ps (p ++ sep)
    else
      match tr cur with
      | Except.ok _ => cur :: transLoopCalls tr ps (p ++ sep)
      | Except.error _ => [cur]

/-- All payloads `translate_text` passes to the provider, in order: the
whole text for the single-call path, the flushed chunks otherwise. -/
def translate_text_calls (tr : Str → Except String Str) (text : Str) :
    List Str :=
  if text.length ≤ maxLength then [text]
  else transLoopCalls tr (splitPar text) []

/-- The `lang_map` dictionary of `detect_language_advanced`, mapping
`langdetect` codes to Tesseract language names. -/
def lang_map : List (String × String) :=
  [("en", "English"), ("de", "German"), ("es", "Spanish"), ("fr", "French"),
   ("it", "Italian"), ("pt", "Portuguese"), ("nl", "Dutch"), ("ru", "Russian"),
   ("ja", "Japanese"), ("zh-cn", "Chinese (Simplified)"),
   ("zh-tw", "Chinese (Traditional)"), ("ko", "Korean"), ("ar", "Arabic"),
   ("hi", "Hindi"), ("tr", "Turkish"), ("pl", "Polish"), ("cs", "Czech"),
   ("el", "Greek"), ("he", "Hebrew"), ("th", "Thai"), ("vi", "Vietnamese"),
   ("id", "Indonesian"), ("ro", "Romanian"), ("bg", "Bulgarian"),
   ("hr", "Croatian"), ("sr", "Serbian"), ("uk", "Ukrainian"),
   ("fa", "Persian"), ("ur", "Urdu"), ("bn", "Bengali"), ("ta", "Tamil"),
   ("te", "Telugu")]

/-- `detect_language_advanced(text)`, with `langdetect.detect` abstracted
as `d` (`none` models a raised exception).  The detected code is mapped
through `lang_map` with default `"English"` (Python's
`lang_map.get(detected_lang, "English")`); a detection exception yields
`("English", "en")`. -/
def detect_language_advanced (d : Str → Option String) (text : Str) :
    String × String :=
  match d text with
  | some code => ((lang_map.lookup code).getD "English", code)
  | none => ("English", "en")

/-- The `priority_languages` list of `auto_detect_and_extract`. -/
def priority_languages : List String :=
  ["eng", "deu", "spa", "fra", "ita", "por", "rus", "jpn", "chi_sim", "ara"]

/-- The candidate loop of `auto_detect_and_extract`, with
`pytesseract.image_to_string` abstracted as `ocr` (per language code;
`none` models a raised exception, which the loop swallows) and
`langdetect.detect` abstracted as `det` (`false` models a raised
exception, i.e. the `except` path).  `best_text` starts empty and holds
stripped text; a candidate whose stripped text is longer than the running
best and longer than 20 characters wins immediately when `det` succeeds on
its raw text, and otherwise becomes the new running best.  After the loop,
an empty `best_text` triggers one fallback OCR call with `"eng"` whose own
exception propagates (the overall `none` result). -/
def autoLoop (ocr : String → Option Str) (det : Str → Bool) :
    List String → Str → String → Option (Str × String)
  | [], best_text, best_lang =>
    if best_text = [] then (ocr "eng").map (fun t => (strip t, "eng"))
    else some (best_text, best_lang)
  | lang :: rest, best_text, best_lang =>
    match ocr lang with
    | none => autoLoop ocr det rest best_text best_lang
    | some text =>
      if (strip text).length > (strip best_text).length then
        if (strip text).length > 20 then
          if det text then some (strip text, lang)
          else if (strip text).length > (strip best_text).length then
            autoLoop ocr det rest (strip text) lang
          else autoLoop ocr det rest best_text best_lang
        else autoLoop ocr det rest best_text best_lang
      else autoLoop ocr det rest best_text best_lang

/-- `auto_detect_and_extract(image)`: run the candidate loop over
`priority_languages` starting from an empty best text and `"eng"`. -/
def auto_detect_and_extract (ocr : String → Option Str) (det : Str → Bool) :
    Option (Str × String) :=
  autoLoop ocr det priority_languages [] "eng"

/-- The language codes `auto_detect_and_extract` passes to OCR, in order
(including the `"eng"` fallback call): same control flow as `autoLoop`,
recording each OCR invocation. -/
def ocrCalls (ocr : String → Option Str) (det : Str → Bool) :
    List String → Str → List String
  | [], best_text => if best_text = [] then ["eng"] else []
  | lang :: rest, best_text =>
    lang ::
      (match ocr lang with
       | none => ocrCalls ocr det rest best_text
       | some text =>
         if (strip text).length > (strip best_text).length then
           if (strip text).length > 20 then
             if det text then []
             else if (strip text).length > (strip best_text).length then
               ocrCalls ocr det rest (strip text)
             else ocrCalls ocr det rest best_text
           else ocrCalls ocr det rest best_text
         else ocrCalls ocr det rest best_text)

/-- All OCR invocations `auto_detect_and_extract` makes, in order. -/
def auto_detect_calls (ocr : String → Option Str) (det : Str → Bool) :
    List String :=
  ocrCalls ocr det priority_languages []

/-! ### Lemmas about the paragraph split and join -/

theorem sep_length : sep.length = 2 := rfl

theorem strip_nil : strip ([] : Str) = [] := rfl

theorem splitPar_ne_nil (s : Str) : splitPar s ≠ [] := by
  induction s using splitPar.induct with
  | case1 => simp [splitPar]
  | case2 rest ih => simp [splitPar]
  | case3 c rest h hnil ih => exact absurd hnil ih
  | case4 c rest h p ps hps ih =>
    rw [splitPar.eq_3 c rest h, hps]
    simp

theorem joinPar_cons_cons (p q : Str) (qs : List Str) :
    joinPar (p :: q :: qs) = p ++ sep ++ joinPar (q :: qs) := rfl

theorem joinPar_singleton (p : Str) : joinPar [p] = p := rfl

theorem joinPar_splitPar (s : Str) : joinPar (splitPar s) = s := by
  induction s using splitPar.induct with
  | case1 => rfl
  | case2 rest ih =>
    rw [splitPar.eq_2]
    cases hq : splitPar rest with
    | nil => exact absurd hq (splitPar_ne_nil rest)
    | cons q qs =>
      rw [hq] at ih
      rw [joinPar_cons_cons, ih]
      simp [sep]
  | case3 c rest h hnil ih => exact absurd hnil (splitPar_ne_nil rest)
  | case4 c rest h p ps hps ih =>
    rw [splitPar.eq_3 c rest h, hps]
    rw [hps] at ih
    cases ps with
    | nil => rw [joinPar_singleton] at ih; simp [joinPar_singleton, ih]
    | cons q qs =>
      rw [joinPar_cons_cons] at ih ⊢
      rw [← ih]
      simp

theorem splitPar_append (p : Str) (hp : '\n' ∉ p) :
    ∀ (s : Str) (q : Str) (qs : List Str), splitPar s = q :: qs →
      splitPar (p ++ s) = (p ++ q) :: qs := by
  induction p with
  | nil => intro s q qs h; simpa using h
  | cons c cs ih =>
    intro s q qs h
    have hc : c ≠ '\n' := fun hceq => hp (by simp [hceq])
    have hcs : '\n' ∉ cs := fun hmem => hp (by simp [hmem])
    have hrec := ih hcs s q qs h
    rw [List.cons_append,
      splitPar.eq_3 c (cs ++ s) (fun r hceq _ => hc hceq), hrec]
    simp

theorem splitPar_no_newline (p : Str) (hp : '\n' ∉ p) : splitPar p = [p] := by
  have := splitPar_append p hp [] [] [] (by simp [splitPar])
  simpa using this

theorem splitPar_sep_append (s : Str) : splitPar (sep ++ s) = [] :: splitPar s := by
  rw [show sep ++ s = '\n' :: '\n' :: s from rfl, splitPar.eq_2]

theorem splitPar_append_sep (p : Str) (s : Str) (hp : '\n' ∉ p) :
    splitPar (p ++ (sep ++ s)) = p :: splitPar s := by
  rw [splitPar_append p hp (sep ++ s) [] (splitPar s) (splitPar_sep_append s)]
  simp

theorem packLoop_flatten (ps : List Str) :
    ∀ cur : Str, (packLoop ps cur).flatten =
      cur ++ (ps.map (fun p => p ++ sep)).flatten := by
  induction ps with
  | nil =>
    intro cur
    rw [packLoop]
    split
    · simp_all
    · simp
  | cons p ps ih =>
    intro cur
    rw [packLoop]
    split_ifs with h1 h2
    · rw [ih]; simp
    · rw [ih]; simp [h2]
    · rw [List.flatten_cons, ih]; simp

theorem flatten_map_sep (ps : List Str) (h : ps ≠ []) :
    (ps.map (fun p => p ++ sep)).flatten = joinPar ps ++ sep := by
  induction ps with
  | nil => exact absurd rfl h
  | cons p qs ih =>
    cases qs with
    | nil => simp [joinPar_singleton]
    | cons q qs =>
      rw [List.map_cons, List.flatten_cons, ih (by simp), joinPar_cons_cons]
      simp

/-! ### Lemmas about the provider-facing loops -/

theorem transLoopCalls_ok (tr : Str → Except String Str)
    (htr : ∀ s, ∃ t, tr s = Except.ok t) (ps : List Str) :
    ∀ cur : Str, transLoopCalls tr ps cur = packLoop ps cur := by
  induction ps with
  | nil => intro cur; rfl
  | cons p ps ih =>
    intro cur
    rw [transLoopCalls, packLoop]
    split_ifs with h1 h2
    · exact ih _
    · exact ih _
    · obtain ⟨t, ht⟩ := htr cur
      rw [ht, ih]

theorem mem_transLoopCalls (tr : Str → Except String Str) (c : Str)
    (ps : List Str) : ∀ cur : Str,
    c ∈ transLoopCalls tr ps cur → c ∈ packLoop ps cur := by
  induction ps with
  | nil => intro cur h; rwa [transLoopCalls] at h
  | cons p ps ih =>
    intro cur h
    rw [transLoopCalls] at h
    rw [packLoop]
    split_ifs with h1 h2
    · rw [if_pos h1] at h; exact ih _ h
    · rw [if_neg h1, if_pos h2] at h; exact ih _ h
    · rw [if_neg h1, if_neg h2] at h
      cases htr : tr cur with
      | ok t =>
        rw [htr] at h
        rcases List.mem_cons.mp h with hcur | hrest
        · exact hcur ▸ List.mem_cons_self cur _
        · exact List.mem_cons_of_mem _ (ih _ hrest)
      | error e =>
        rw [htr] at h
        rcases List.mem_singleton.mp h with hcur
        exact hcur ▸ List.mem_cons_self cur _

/-- Size invariant for the chunking loop: every flushed chunk either has
length at most `max_length + 1` (one more than the limit, because the
buffer carries a trailing separator) or is a single oversized paragraph
(of length at least `max_length`) with the trailing separator. -/
theorem packLoop_bound (Q : Str → Prop) (ps : List Str) :
    ∀ cur : Str, (∀ p ∈ ps, Q p) →
    (cur = [] ∨ cur.length ≤ maxLength + 1 ∨
      ∃ p, Q p ∧ cur = p ++ sep ∧ maxLength ≤ p.length) →
    ∀ c ∈ packLoop ps cur,
      c.length ≤ maxLength + 1 ∨
        ∃ p, Q p ∧ c = p ++ sep ∧ maxLength ≤ p.length := by
  induction ps with
  | nil =>
    intro cur hQ hinv c hc
    rw [packLoop] at hc
    split at hc
    · simp at hc
    · rename_i hne
      rw [List.mem_singleton.mp hc]
      rcases hinv with h | h | h
      · exact absurd h hne
      · exact Or.inl h
      · exact Or.inr h
  | cons p ps ih =>
    intro cur hQ hinv c hc
    have hQp : Q p := hQ p (List.mem_cons_self p ps)
    have hQps : ∀ q ∈ ps, Q q := fun q hq => hQ q (List.mem_cons_of_mem p hq)
    rw [packLoop] at hc
    split_ifs at hc with h1 h2
    · refine ih _ hQps ?_ c hc
      right; left
      simp only [List.length_append, sep_length]
      omega
    · refine ih _ hQps ?_ c hc
      by_cases hbig : maxLength ≤ p.length
      · exact Or.inr (Or.inr ⟨p, hQp, rfl, hbig⟩)
      · right; left
        simp only [List.length_append, sep_length]
        omega
    · rcases List.mem_cons.mp hc with hcur | hrest
      · rcases hinv with h | h | h
        · exact absurd h h2
        · exact Or.inl (hcur ▸ h)
        · exact Or.inr (hcur ▸ h)
      · refine ih _ hQps ?_ c hrest
        by_cases hbig : maxLength ≤ p.length
        · exact Or.inr (Or.inr ⟨p, hQp, rfl, hbig⟩)
        · right; left
          simp only [List.length_append, sep_length]
          omega

/-- If some chunk of the decomposition fails under the provider, the
chunking loop stops at the first failure and returns its error. -/
theorem transLoop_error (tr : Str → Except String Str) (ps : List Str) :
    ∀ (acc : List Str) (cur : Str),
    (∃ c ∈ packLoop ps cur, ∃ e, tr c = Except.error e) →
    ∃ e, transLoop tr ps acc cur = Except.error e ∧
      ∃ c ∈ packLoop ps cur, tr c = Except.error e := by
  induction ps with
  | nil =>
    intro acc cur h
    obtain ⟨c, hc, e, he⟩ := h
    rw [packLoop] at hc ⊢
    split at hc
    · simp at hc
    · rename_i hne
      rw [List.mem_singleton.mp hc] at he
      refine ⟨e, ?_, cur, ?_, he⟩
      · rw [transLoop, if_neg hne, he]; rfl
      · rw [if_neg hne]; exact List.mem_singleton.mpr rfl
  | cons p ps ih =>
    intro acc cur h
    rw [packLoop] at h ⊢
    rw [transLoop]
    split_ifs at h ⊢ with h1 h2
    · exact ih acc _ h
    · exact ih acc _ h
    · cases htr : tr cur with
      | error e =>
        refine ⟨e, rfl, cur, List.mem_cons_self cur _, htr⟩
      | ok t =>
        obtain ⟨c, hc, e, he⟩ := h
        rcases List.mem_cons.mp hc with hcur | hrest
        · rw [hcur, htr] at he; exact absurd he (by simp)
        · obtain ⟨e, heq, c, hcm, hce⟩ := ih (acc ++ [t]) _ ⟨c, hrest, e, he⟩
          exact ⟨e, heq, c, List.mem_cons_of_mem _ hcm, hce⟩

/-- If every candidate's OCR raises or yields whitespace-only text, the
candidate loop never updates its running best and falls through to the
`"eng"` fallback call. -/
theorem autoLoop_all_empty (ocr : String → Option Str) (det : Str → Bool)
    (ls : List String)
    (h : ∀ lang ∈ ls, ocr lang = none ∨
      ∃ t, ocr lang = some t ∧ (strip t).length = 0) :
    ∀ bl : String, autoLoop ocr det ls [] bl =
      (ocr "eng").map (fun t => (strip t, "eng")) := by
  induction ls with
  | nil => intro bl; rw [autoLoop]; simp
  | cons lang rest ih =>
    intro bl
    have hrest : ∀ l ∈ rest, ocr l = none ∨
        ∃ t, ocr l = some t ∧ (strip t).length = 0 :=
      fun l hl => h l (List.mem_cons_of_mem _ hl)
    rcases h lang (List.mem_cons_self lang rest) with hnone | ⟨t, ht, hlen⟩
    · rw [autoLoop, hnone]
      exact ih hrest bl
    · have hc : ¬ (strip t).length > (strip ([] : Str)).length := by
        rw [strip_nil, hlen]; simp
      simp only [autoLoop, ht]
      rw [if_neg hc]
      exact ih hrest bl

/-! ### Step lemmas for evaluating the chunking loop -/

theorem packLoop_fit (p : Str) (ps : List Str) (cur : Str)
    (h : cur.length + p.length < maxLength) :
    packLoop (p :: ps) cur = packLoop ps (cur ++ p ++ sep) := by
  rw [packLoop, if_pos h]

theorem packLoop_flush (p : Str) (ps : List Str) (cur : Str)
    (h : ¬ cur.length + p.length < maxLength) (h2 : ¬ cur = []) :
    packLoop (p :: ps) cur = cur :: packLoop ps (p ++ sep) := by
  rw [packLoop, if_neg h, if_neg h2]

theorem packLoop_skip (p : Str) (ps : List Str)
    (h : ¬ (([] : Str)).length + p.length < maxLength) :
    packLoop (p :: ps) [] = packLoop ps (p ++ sep) := by
  rw [packLoop, if_neg h, if_pos rfl]

theorem packLoop_nil_nonempty (cur : Str) (h : ¬ cur = []) :
    packLoop [] cur = [cur] := by
  rw [packLoop, if_neg h]

theorem sep_ne_nil : ¬ (sep = []) := by simp [sep]

theorem append_sep_ne_nil (s : Str) : ¬ (s ++ sep = []) := by
  simp [sep]

/-- The first chunk the loop produces from a nonempty buffer is that
buffer, possibly extended by further appends — never anything shorter. -/
theorem packLoop_first_chunk (ps : List Str) : ∀ (cur c : Str)
    (rest : List Str), ¬ cur = [] → packLoop ps cur = c :: rest →
    cur.length ≤ c.length := by
  induction ps with
  | nil =>
    intro cur c rest hne hpk
    rw [packLoop, if_neg hne] at hpk
    injection hpk with hc _
    rw [hc]
  | cons p ps ih =>
    intro cur c rest hne hpk
    rw [packLoop] at hpk
    by_cases h1 : cur.length + p.length < maxLength
    · rw [if_pos h1] at hpk
      have hrec := ih (cur ++ p ++ sep) c rest (append_sep_ne_nil _) hpk
      simp only [List.length_append] at hrec
      omega
    · rw [if_neg h1, if_neg hne] at hpk
      injection hpk with hc _
      rw [hc]

/-- Greedy maximality of the chunking loop: a buffer is flushed only when
`len(current_chunk) + len(para) >= max_length` for the incoming paragraph
`para`, and the next chunk starts with that paragraph plus its trailing
separator, so any two adjacent produced chunks have combined length at
least `max_length + 2` — no two adjacent chunks could have been merged
under the loop's own fit check. -/
theorem packLoop_chain (ps : List Str) : ∀ cur : Str,
    List.Chain' (fun c d => maxLength + 2 ≤ c.length + d.length)
      (packLoop ps cur) := by
  induction ps with
  | nil =>
    intro cur
    rw [packLoop]
    split
    · exact List.chain'_nil
    · exact List.chain'_singleton _
  | cons p ps ih =>
    intro cur
    rw [packLoop]
    split_ifs with h1 h2
    · exact ih _
    · exact ih _
    · rw [List.chain'_cons']
      refine ⟨?_, ih _⟩
      intro b hb
      cases hpk : packLoop ps (p ++ sep) with
      | nil => rw [hpk] at hb; simp at hb
      | cons c rest =>
        rw [hpk] at hb
        simp only [List.head?_cons, Option.mem_def, Option.some.injEq] at hb
        have hfirst := packLoop_first_chunk ps (p ++ sep) c rest
          (append_sep_ne_nil p) hpk
        simp only [List.length_append, sep_length] at hfirst
        rw [← hb]
        omega

/-- Splitting a text of exactly two separator-free paragraphs, where the
first fits in an empty buffer but the two do not fit together, yields the
two single-paragraph chunks (each with a trailing separator). -/
theorem chunks_two (p q : Str) (hp : '\n' ∉ p) (hq : '\n' ∉ q)
    (h1 : p.length < maxLength) (h2 : maxLength ≤ p.length + 2 + q.length) :
    chunks (p ++ (sep ++ q)) = [p ++ sep, q ++ sep] := by
  have hs : splitPar (p ++ (sep ++ q)) = [p, q] := by
    rw [splitPar_append_sep p q hp, splitPar_no_newline q hq]
  rw [chunks, hs]
  rw [packLoop_fit p [q] []
    (by simp only [List.length_nil]; omega)]
  rw [packLoop_flush q [] ([] ++ p ++ sep)
    (by simp only [List.nil_append, List.length_append, sep_length]; omega)
    (by simp [sep])]
  rw [packLoop_nil_nonempty (q ++ sep) (append_sep_ne_nil q)]
  simp only [List.nil_append]

/-! ### Claim C1 -/

/-- A 5002-character text of two 2500-character paragraphs, used to refute
the round-trip claim for the paragraph split of `translate_text`. -/
def exC1 : Str := List.replicate 2500 'a' ++ (sep ++ List.replicate 2500 'b')

theorem no_newline_replicate_a : '\n' ∉ List.replicate 2500 'a' :=
  fun h => absurd (List.mem_replicate.mp h).2 (by decide)

theorem no_newline_replicate_b : '\n' ∉ List.replicate 2500 'b' :=
  fun h => absurd (List.mem_replicate.mp h).2 (by decide)

/-- Claim C1, as stated, is false: for the 5002-character two-paragraph
text `exC1` (longer than the 4500-character maximum), rejoining the
produced chunks with the paragraph separator `"\n\n"` does not reproduce
the original text — every chunk carries a trailing separator, so the
rejoined text has two extra separators (length 5006 instead of 5002). -/
theorem C1_roundtrip_cex :
    maxLength < exC1.length ∧ joinPar (chunks exC1) ≠ exC1 := by
  have hch : chunks exC1 = [List.replicate 2500 'a' ++ sep,
      List.replicate 2500 'b' ++ sep] := by
    rw [exC1]
    exact chunks_two _ _ no_newline_replicate_a no_newline_replicate_b
      (by rw [List.length_replicate]; norm_num [maxLength])
      (by rw [List.length_replicate, List.length_replicate]; norm_num [maxLength])
  constructor
  · simp only [exC1, List.length_append, List.length_replicate, sep_length,
      maxLength]
    omega
  · intro heq
    rw [hch] at heq
    have hl := congrArg List.length heq
    rw [joinPar_cons_cons, joinPar_singleton] at hl
    simp only [exC1, List.length_append, List.length_replicate,
      sep_length] at hl
    omega

/-- Claim C1 (amended): the chunks produced by `translate_text`'s
paragraph split do reconstruct the input, but by plain concatenation, and
with one extra trailing separator: each chunk already ends in `"\n\n"`, so
concatenating all chunks yields the original text followed by `"\n\n"`
(and rejoining with the separator, as the code does with the translated
chunks, inserts an extra separator at every chunk boundary). -/
theorem C1_concat_chunks (text : Str) (h : maxLength < text.length) :
    (chunks text).flatten = text ++ sep := by
  rw [chunks, packLoop_flatten,
    flatten_map_sep (splitPar text) (splitPar_ne_nil text), joinPar_splitPar]
  simp

/-- Witness for `C1_concat_chunks` at a concrete 4501-character text. -/
theorem C1_concat_chunks_witness :
    (chunks (List.replicate 4501 'a')).flatten =
      List.replicate 4501 'a' ++ sep :=
  C1_concat_chunks (List.replicate 4501 'a')
    (by rw [List.length_replicate]; norm_num [maxLength])

/-! ### Claim C2 -/

/-- Claim C2, as stated, is false: on empty input, `translate_text` does
not make zero provider calls — the empty string satisfies
`len(text) <= max_length`, so it is passed to the provider in one call. -/
theorem C2_empty_zero_calls_cex :
    ¬ translate_text_calls (fun s => Except.ok s) ([] : Str) = [] := by
  rw [translate_text_calls, if_pos (by simp [maxLength])]
  simp

/-- Claim C2 (amended): on empty input, `translate_text` takes the
single-call path, making exactly one provider call whose payload is the
empty string, and returns that call's result (the empty string whenever
the provider returns the empty string for it). -/
theorem C2_empty_single_call (tr : Str → Except String Str)
    (h : tr [] = Except.ok []) :
    translate_text_calls tr [] = [([] : Str)] ∧
      translate_text tr [] = Except.ok [] := by
  constructor
  · rw [translate_text_calls, if_pos (by simp [maxLength])]
  · rw [translate_text, if_pos (by simp [maxLength]), h]

/-- Witness for `C2_empty_single_call` with the identity provider. -/
theorem C2_empty_single_call_witness :
    translate_text_calls (fun s => Except.ok s) [] = [([] : Str)] ∧
      translate_text (fun s => Except.ok s) [] = Except.ok [] :=
  C2_empty_single_call (fun s => Except.ok s) rfl

/-! ### Claim C4 -/

/-- A 9000-character text of two 4499-character paragraphs, used to refute
the 4500-character chunk bound: its first chunk is a 4499-character
paragraph plus the trailing separator, i.e. 4501 characters, although that
paragraph by itself does not exceed the maximum. -/
def exC4 : Str := List.replicate 4499 'a' ++ (sep ++ List.replicate 4499 'b')

theorem no_newline_replicate_a4 : '\n' ∉ List.replicate 4499 'a' :=
  fun h => absurd (List.mem_replicate.mp h).2 (by decide)

theorem no_newline_replicate_b4 : '\n' ∉ List.replicate 4499 'b' :=
  fun h => absurd (List.mem_replicate.mp h).2 (by decide)

theorem chunks_exC4 : chunks exC4 = [List.replicate 4499 'a' ++ sep,
    List.replicate 4499 'b' ++ sep] := by
  rw [exC4]
  exact chunks_two _ _ no_newline_replicate_a4 no_newline_replicate_b4
    (by rw [List.length_replicate]; norm_num [maxLength])
    (by rw [List.length_replicate, List.length_replicate]; norm_num [maxLength])

/-- Claim C4, as stated, is false: `translate_text` sends a chunk of 4501
characters (> 4500) for `exC4`, although no paragraph of `exC4` exceeds
the 4500-character maximum (both have 4499 characters), so the oversized
chunk is not covered by the single-oversized-paragraph exception. -/
theorem C4_chunk_bound_cex :
    (List.replicate 4499 'a' ++ sep) ∈ chunks exC4 ∧
      maxLength < (List.replicate 4499 'a' ++ sep).length ∧
      splitPar exC4 = [List.replicate 4499 'a', List.replicate 4499 'b'] ∧
      (List.replicate 4499 'a').length ≤ maxLength ∧
      (List.replicate 4499 'b').length ≤ maxLength := by
  refine ⟨?_, ?_, ?_, ?_, ?_⟩
  · rw [chunks_exC4]; exact List.mem_cons_self _ _
  · simp only [List.length_append, List.length_replicate, sep_length,
      maxLength]
    omega
  · rw [exC4, splitPar_append_sep _ _ no_newline_replicate_a4,
      splitPar_no_newline _ no_newline_replicate_b4]
  · rw [List.length_replicate]; norm_num [maxLength]
  · rw [List.length_replicate]; norm_num [maxLength]

/-- Claim C4 (amended): every payload `translate_text` sends to the
provider has length at most `max_length + 1` (4501 — the buffer carries
one trailing separator beyond the `< max_length` check), except a chunk
that is a single paragraph of length at least `max_length` with the
trailing separator appended; such an oversized paragraph is sent unsplit
(as one chunk, with `"\n\n"` appended). -/
theorem C4_chunk_bound (tr : Str → Except String Str) (text c : Str)
    (hc : c ∈ translate_text_calls tr text) :
    c.length ≤ maxLength + 1 ∨
      ∃ p, p ∈ splitPar text ∧ c = p ++ sep ∧ maxLength ≤ p.length := by
  rw [translate_text_calls] at hc
  by_cases h : text.length ≤ maxLength
  · rw [if_pos h] at hc
    rw [List.mem_singleton.mp hc]
    exact Or.inl (by omega)
  · rw [if_neg h] at hc
    exact packLoop_bound (fun p => p ∈ splitPar text) (splitPar text) []
      (fun p hp => hp) (Or.inl rfl) c
      (mem_transLoopCalls tr c (splitPar text) [] hc)

/-- Witness for `C4_chunk_bound` at a concrete short text: the only
payload is the whole two-character text, within the bound; the oversized
single-paragraph alternative is impossible at this length. -/
theorem C4_chunk_bound_witness : (['h', 'i'] : Str).length ≤ maxLength + 1 := by
  rcases C4_chunk_bound (fun s => Except.ok s) ['h', 'i'] ['h', 'i']
      (by rw [translate_text_calls, if_pos (by simp [maxLength])]; simp)
    with h | ⟨p, _, hpe, hpl⟩
  · exact h
  · have hl := congrArg List.length hpe
    simp only [List.length_cons, List.length_nil, List.length_append,
      sep_length, maxLength] at hl hpl ⊢
    omega

/-! ### Claim C5 -/

/-- A text of five paragraphs joined by the paragraph separator. -/
def fiveText (p1 p2 p3 p4 p5 : Str) : Str :=
  p1 ++ sep ++ p2 ++ sep ++ p3 ++ sep ++ p4 ++ sep ++ p5

/-- For five 2000-character separator-free paragraphs, the greedy loop
packs them into exactly the chunks (1, 2), (3, 4), (5). -/
theorem chunks_fiveText (p1 p2 p3 p4 p5 : Str)
    (n1 : '\n' ∉ p1) (n2 : '\n' ∉ p2) (n3 : '\n' ∉ p3) (n4 : '\n' ∉ p4)
    (n5 : '\n' ∉ p5) (l1 : p1.length = 2000) (l2 : p2.length = 2000)
    (l3 : p3.length = 2000) (l4 : p4.length = 2000) (l5 : p5.length = 2000) :
    chunks (fiveText p1 p2 p3 p4 p5) =
      [p1 ++ sep ++ p2 ++ sep, p3 ++ sep ++ p4 ++ sep, p5 ++ sep] := by
  have hsplit : splitPar (fiveText p1 p2 p3 p4 p5) = [p1, p2, p3, p4, p5] := by
    rw [fiveText]
    simp only [List.append_assoc]
    rw [splitPar_append_sep p1 _ n1, splitPar_append_sep p2 _ n2,
      splitPar_append_sep p3 _ n3, splitPar_append_sep p4 _ n4,
      splitPar_no_newline p5 n5]
  rw [chunks, hsplit]
  rw [packLoop_fit p1 [p2, p3, p4, p5] []
    (by simp only [List.length_nil, l1, maxLength]; omega)]
  rw [packLoop_fit p2 [p3, p4, p5] ([] ++ p1 ++ sep)
    (by simp only [List.nil_append, List.length_append, sep_length, l1, l2,
      maxLength]; omega)]
  rw [packLoop_flush p3 [p4, p5] ([] ++ p1 ++ sep ++ p2 ++ sep)
    (by simp only [List.nil_append, List.length_append, sep_length, l1, l2,
      l3, maxLength]
        omega)
    (append_sep_ne_nil ([] ++ p1 ++ sep ++ p2))]
  rw [packLoop_fit p4 [p5] (p3 ++ sep)
    (by simp only [List.length_append, sep_length, l3, l4, maxLength]; omega)]
  rw [packLoop_flush p5 [] (p3 ++ sep ++ p4 ++ sep)
    (by simp only [List.length_append, sep_length, l3, l4, l5, maxLength]
        omega)
    (append_sep_ne_nil (p3 ++ sep ++ p4))]
  rw [packLoop_nil_nonempty (p5 ++ sep) (append_sep_ne_nil p5)]
  simp only [List.nil_append]

/-- A 6501-character text of three paragraphs of 2000, 2497 and 2000
characters, used to refute the claimed flush rule of C5: processing the
second paragraph, the buffer holds 2002 characters (first paragraph plus
trailing separator) and the code's check `2002 + 2497 < 4500` passes —
the separator is not counted — so the paragraph is appended and the
buffer grows to 4501 characters, past the maximum, where the claimed rule
("addition plus the separator would exceed the maximum length causes a
flush") flushes instead. -/
def exC5 : Str := List.replicate 2000 'a' ++
  (sep ++ (List.replicate 2497 'b' ++ (sep ++ List.replicate 2000 'c')))

theorem no_newline_replicate_a5 : '\n' ∉ List.replicate 2000 'a' :=
  fun h => absurd (List.mem_replicate.mp h).2 (by decide)

theorem no_newline_replicate_b5 : '\n' ∉ List.replicate 2497 'b' :=
  fun h => absurd (List.mem_replicate.mp h).2 (by decide)

theorem no_newline_replicate_c5 : '\n' ∉ List.replicate 2000 'c' :=
  fun h => absurd (List.mem_replicate.mp h).2 (by decide)

/-- Claim C5, as stated, is false: its flush rule — "a paragraph whose
addition (plus the separator) would exceed the maximum length causes the
current buffer to be flushed" — does not match the code's check
`len(current_chunk) + len(para) < max_length`, which ignores the
separator.  On `exC5` (longer than 4500), the code appends the
2497-character second paragraph to the 2002-character buffer
(2002 + 2497 = 4499 < 4500) although with the separator the buffer comes
to 4501 > 4500, where the claimed rule flushes: so the code packs the
first two paragraphs into one 4501-character chunk (two chunks in all),
while the claimed rule would start a fresh buffer at the second
paragraph and produce three chunks. -/
theorem C5_flush_rule_cex :
    maxLength < exC5.length ∧
      chunks exC5 = [List.replicate 2000 'a' ++ sep ++
          List.replicate 2497 'b' ++ sep,
        List.replicate 2000 'c' ++ sep] ∧
      maxLength < (List.replicate 2000 'a' ++ sep ++
        List.replicate 2497 'b' ++ sep).length := by
  refine ⟨?_, ?_, ?_⟩
  · simp only [exC5, List.length_append, List.length_replicate, sep_length,
      maxLength]
    omega
  · have hsplit : splitPar exC5 = [List.replicate 2000 'a',
        List.replicate 2497 'b', List.replicate 2000 'c'] := by
      rw [exC5, splitPar_append_sep _ _ no_newline_replicate_a5,
        splitPar_append_sep _ _ no_newline_replicate_b5,
        splitPar_no_newline _ no_newline_replicate_c5]
    rw [chunks, hsplit]
    rw [packLoop_fit (List.replicate 2000 'a')
      [List.replicate 2497 'b', List.replicate 2000 'c'] []
      (by simp only [List.length_nil, List.length_replicate, maxLength]
          omega)]
    rw [packLoop_fit (List.replicate 2497 'b') [List.replicate 2000 'c']
      ([] ++ List.replicate 2000 'a' ++ sep)
      (by simp only [List.nil_append, List.length_append,
            List.length_replicate, sep_length, maxLength]
          omega)]
    rw [packLoop_flush (List.replicate 2000 'c') []
      ([] ++ List.replicate 2000 'a' ++ sep ++ List.replicate 2497 'b' ++ sep)
      (by simp only [List.nil_append, List.length_append,
            List.length_replicate, sep_length, maxLength]
          omega)
      (append_sep_ne_nil ([] ++ List.replicate 2000 'a' ++ sep ++
        List.replicate 2497 'b'))]
    rw [packLoop_nil_nonempty _ (append_sep_ne_nil (List.replicate 2000 'c'))]
    simp only [List.nil_append]
  · simp only [List.length_append, List.length_replicate, sep_length,
      maxLength]
    omega

/-- Claim C5 (amended): for every input longer than 4500 characters, the
loop packs paragraphs greedily left to right, but the fit check is
`len(current_chunk) + len(para) < max_length`, where the buffer already
carries a trailing separator for each buffered paragraph and the incoming
paragraph's separator is not counted: the nonempty buffer is flushed
exactly when `len(current_chunk) + len(para) >= 4500` (so a buffer may
reach 4501 characters before flushing), each flushed chunk is passed to
the provider, and the packing is maximal for that check — any two
adjacent chunks have combined length at least `max_length + 2`; for the
10008-character input of five 2000-character paragraphs, exactly 3 chunks
are produced and translated. -/
theorem C5_greedy_packing (tr : Str → Except String Str)
    (htr : ∀ s, ∃ t, tr s = Except.ok t) (text : Str)
    (h : maxLength < text.length) (p1 p2 p3 p4 p5 : Str)
    (n1 : '\n' ∉ p1) (n2 : '\n' ∉ p2) (n3 : '\n' ∉ p3) (n4 : '\n' ∉ p4)
    (n5 : '\n' ∉ p5) (l1 : p1.length = 2000) (l2 : p2.length = 2000)
    (l3 : p3.length = 2000) (l4 : p4.length = 2000) (l5 : p5.length = 2000) :
    List.Chain' (fun c d => maxLength + 2 ≤ c.length + d.length)
        (chunks text) ∧
      translate_text_calls tr text = chunks text ∧
      (chunks (fiveText p1 p2 p3 p4 p5)).length = 3 ∧
      translate_text_calls tr (fiveText p1 p2 p3 p4 p5) =
        chunks (fiveText p1 p2 p3 p4 p5) := by
  refine ⟨?_, ?_, ?_, ?_⟩
  · rw [chunks]
    exact packLoop_chain (splitPar text) []
  · rw [translate_text_calls, if_neg (by omega),
      transLoopCalls_ok tr htr (splitPar text), chunks]
  · rw [chunks_fiveText p1 p2 p3 p4 p5 n1 n2 n3 n4 n5 l1 l2 l3 l4 l5]
    rfl
  · have hlen : ¬ (fiveText p1 p2 p3 p4 p5).length ≤ maxLength := by
      simp only [fiveText, List.length_append, sep_length, l1, l2, l3, l4,
        l5, maxLength]
      omega
    rw [translate_text_calls, if_neg hlen,
      transLoopCalls_ok tr htr (splitPar (fiveText p1 p2 p3 p4 p5)), chunks]

/-- The five-2000-character-paragraph input of the C5 scenario. -/
def c5text : Str :=
  fiveText (List.replicate 2000 'a') (List.replicate 2000 'b')
    (List.replicate 2000 'c') (List.replicate 2000 'd')
    (List.replicate 2000 'e')

/-- Witness for `C5_greedy_packing` at the concrete five-paragraph input
and the identity provider. -/
theorem C5_greedy_packing_witness :
    List.Chain' (fun c d => maxLength + 2 ≤ c.length + d.length)
        (chunks c5text) ∧
      translate_text_calls (fun s => Except.ok s) c5text = chunks c5text ∧
      (chunks c5text).length = 3 ∧
      translate_text_calls (fun s => Except.ok s) c5text = chunks c5text :=
  C5_greedy_packing (fun s => Except.ok s) (fun s => ⟨s, rfl⟩) c5text
    (by simp only [c5text, fiveText, List.length_append,
          List.length_replicate, sep_length, maxLength]
        omega)
    (List.replicate 2000 'a') (List.replicate 2000 'b')
    (List.replicate 2000 'c') (List.replicate 2000 'd')
    (List.replicate 2000 'e')
    (fun h => absurd (List.mem_replicate.mp h).2 (by decide))
    (fun h => absurd (List.mem_replicate.mp h).2 (by decide))
    (fun h => absurd (List.mem_replicate.mp h).2 (by decide))
    (fun h => absurd (List.mem_replicate.mp h).2 (by decide))
    (fun h => absurd (List.mem_replicate.mp h).2 (by decide))
    (List.length_replicate 2000 'a') (List.length_replicate 2000 'b')
    (List.length_replicate 2000 'c') (List.length_replicate 2000 'd')
    (List.length_replicate 2000 'e')

/-! ### Claim C8 -/

/-- Claim C8: for text of length at most `max_length` (4500),
`translate_text` makes exactly one provider call, whose payload is the
whole text, and returns that call's result directly when it succeeds. -/
theorem C8_single_call (tr : Str → Except String Str) (text : Str)
    (h : text.length ≤ maxLength) :
    translate_text_calls tr text = [text] ∧
      ∀ r, tr text = Except.ok r → translate_text tr text = Except.ok r := by
  constructor
  · rw [translate_text_calls, if_pos h]
  · intro r hr
    rw [translate_text, if_pos h, hr]

/-- Witness for `C8_single_call` at a concrete short text with the
identity provider. -/
theorem C8_single_call_witness :
    translate_text_calls (fun s => Except.ok s) ['h', 'i'] = [['h', 'i']] ∧
      translate_text (fun s => Except.ok s) ['h', 'i'] =
        Except.ok ['h', 'i'] :=
  ⟨(C8_single_call (fun s => Except.ok s) ['h', 'i']
      (by simp [maxLength])).1,
    (C8_single_call (fun s => Except.ok s) ['h', 'i']
      (by simp [maxLength])).2 ['h', 'i'] rfl⟩

/-! ### Claim C9 -/

/-- Claim C9: if the provider raises on any chunk, `translate_text`
aborts: it returns no translation (no partial success) and raises a
`TranslationError` (`Exception("Translation error: " + cause)`) whose
cause is the error of the first failing chunk. -/
theorem C9_abort_on_error (tr : Str → Except String Str) (text : Str)
    (h1 : maxLength < text.length)
    (h2 : ∃ c ∈ chunks text, ∃ e, tr c = Except.error e) :
    ∃ e, translate_text tr text =
        Except.error ("Translation error: " ++ e) ∧
      ∃ c ∈ chunks text, tr c = Except.error e := by
  rw [chunks] at h2
  obtain ⟨e, heq, hc⟩ := transLoop_error tr (splitPar text) [] [] h2
  refine ⟨e, ?_, ?_⟩
  · rw [translate_text, if_neg (by omega), heq]
    rfl
  · rw [chunks]; exact hc

/-- A provider that always raises, for the `C9_abort_on_error` witness. -/
def trBoom : Str → Except String Str := fun _ => Except.error "boom"

theorem chunks_replicate_4501 : chunks (List.replicate 4501 'a') =
    [List.replicate 4501 'a' ++ sep] := by
  have hs : splitPar (List.replicate 4501 'a') = [List.replicate 4501 'a'] :=
    splitPar_no_newline _
      (fun h => absurd (List.mem_replicate.mp h).2 (by decide))
  rw [chunks, hs]
  rw [packLoop_skip _ _
    (by simp only [List.length_nil, List.length_replicate, maxLength]; omega)]
  exact packLoop_nil_nonempty _ (append_sep_ne_nil _)

/-- Witness for `C9_abort_on_error` at a concrete 4501-character text
with an always-raising provider. -/
theorem C9_abort_on_error_witness :
    translate_text trBoom (List.replicate 4501 'a') =
      Except.error ("Translation error: " ++ "boom") := by
  have h1 : maxLength < (List.replicate 4501 'a').length := by
    rw [List.length_replicate]
    norm_num [maxLength]
  have hmem : (List.replicate 4501 'a' ++ sep) ∈
      chunks (List.replicate 4501 'a') := by
    rw [chunks_replicate_4501]
    exact List.mem_singleton.mpr rfl
  obtain ⟨e, heq, c, hcm, hce⟩ :=
    C9_abort_on_error trBoom (List.replicate 4501 'a') h1
      ⟨List.replicate 4501 'a' ++ sep, hmem, "boom", rfl⟩
  have h4 : "boom" = e := Except.error.inj hce
  rw [← h4] at heq
  exact heq

/-! ### Claim C3 -/

/-- OCR results refuting the "longest text wins" reading: the first
candidate (`"eng"`) yields 15 characters, the second (`"deu"`) yields 18;
both are at or below the 20-character threshold. -/
def ocrC3 : String → Option Str := fun lang =>
  if lang = "eng" then some (List.replicate 15 'a')
  else if lang = "deu" then some (List.replicate 18 'b') else none

set_option maxRecDepth 40000 in
/-- Claim C3, as stated, is false: the loop only updates its running best
for candidates whose stripped text exceeds 20 characters (and fails
secondary detection), so with candidate texts of 15 and 18 characters the
loop completes with an empty best and returns the `"eng"` fallback result
(the 15-character text), not the longest text seen (the 18-character
`"deu"` text). -/
theorem C3_longest_tracking_cex :
    auto_detect_and_extract ocrC3 (fun _ => true) =
        some (List.replicate 15 'a', "eng") ∧
      (strip (List.replicate 15 'a')).length <
        (strip (List.replicate 18 'b')).length := by
  constructor
  · decide
  · decide

/-- Claim C3 (amended): candidates whose stripped text has at most 20
characters never update the running best (so the loop does not track the
longest text across *all* candidates); still, in the claim's scenario —
first candidate at most 20 (e.g. 15) stripped characters, second
candidate more than 20 (e.g. 200) stripped characters passing secondary
detection — the second candidate wins with its stripped text. -/
theorem C3_second_candidate_wins (ocr : String → Option Str)
    (det : Str → Bool) (t1 t2 : Str) (h1 : ocr "eng" = some t1)
    (h2 : (strip t1).length ≤ 20) (h3 : ocr "deu" = some t2)
    (h4 : 20 < (strip t2).length) (h5 : det t2 = true) :
    auto_detect_and_extract ocr det = some (strip t2, "deu") := by
  have step1 : ∀ ls : List String,
      autoLoop ocr det ("eng" :: ls) [] "eng" =
        autoLoop ocr det ls [] "eng" := by
    intro ls
    rw [autoLoop.eq_2, h1]
    show (if (strip t1).length > (strip ([] : Str)).length then
        if (strip t1).length > 20 then
          if det t1 then some (strip t1, "eng")
          else if (strip t1).length > (strip ([] : Str)).length then
            autoLoop ocr det ls (strip t1) "eng"
          else autoLoop ocr det ls [] "eng"
        else autoLoop ocr det ls [] "eng"
      else autoLoop ocr det ls [] "eng") = autoLoop ocr det ls [] "eng"
    by_cases hz : (strip t1).length > (strip ([] : Str)).length
    · rw [if_pos hz, if_neg (by omega)]
    · rw [if_neg hz]
  have step2 : ∀ ls : List String,
      autoLoop ocr det ("deu" :: ls) [] "eng" =
        some (strip t2, "deu") := by
    intro ls
    have hz : (strip t2).length > (strip ([] : Str)).length := by
      rw [strip_nil]
      simp only [List.length_nil]
      omega
    rw [autoLoop.eq_2, h3]
    show (if (strip t2).length > (strip ([] : Str)).length then
        if (strip t2).length > 20 then
          if det t2 then some (strip t2, "deu")
          else if (strip t2).length > (strip ([] : Str)).length then
            autoLoop ocr det ls (strip t2) "deu"
          else autoLoop ocr det ls [] "eng"
        else autoLoop ocr det ls [] "eng"
      else autoLoop ocr det ls [] "eng") = some (strip t2, "deu")
    rw [if_pos hz, if_pos h4, if_pos h5]
  show autoLoop ocr det ("eng" :: "deu" ::
    ["spa", "fra", "ita", "por", "rus", "jpn", "chi_sim", "ara"]) [] "eng" = _
  rw [step1, step2]

/-- OCR results for the `C3_second_candidate_wins` witness: 15 characters
for `"eng"`, 200 characters for `"deu"`. -/
def ocrW3 : String → Option Str := fun lang =>
  if lang = "eng" then some (List.replicate 15 'a')
  else if lang = "deu" then some (List.replicate 200 'b') else none

set_option maxRecDepth 40000 in
/-- Witness for `C3_second_candidate_wins` at concrete OCR results. -/
theorem C3_second_candidate_wins_witness :
    auto_detect_and_extract ocrW3 (fun _ => true) =
      some (strip (List.replicate 200 'b'), "deu") :=
  C3_second_candidate_wins ocrW3 (fun _ => true) _ _ rfl (by decide) rfl
    (by decide) rfl

/-! ### Claim C6 -/

/-- Claim C6: when the first candidate (`"eng"`) yields text whose
stripped length exceeds 20 and secondary detection succeeds on it, the
detector returns that candidate as the winner immediately, and the only
OCR invocation made is for the first candidate — none for any later
candidate. -/
theorem C6_early_exit (ocr : String → Option Str) (det : Str → Bool)
    (t : Str) (h1 : ocr "eng" = some t) (h2 : 20 < (strip t).length)
    (h3 : det t = true) :
    auto_detect_and_extract ocr det = some (strip t, "eng") ∧
      auto_detect_calls ocr det = ["eng"] := by
  have hz : (strip t).length > (strip ([] : Str)).length := by
    rw [strip_nil]
    simp only [List.length_nil]
    omega
  constructor
  · show autoLoop ocr det ("eng" ::
      ["deu", "spa", "fra", "ita", "por", "rus", "jpn", "chi_sim", "ara"])
      [] "eng" = _
    rw [autoLoop.eq_2, h1]
    show (if (strip t).length > (strip ([] : Str)).length then
        if (strip t).length > 20 then
          if det t then some (strip t, "eng")
          else if (strip t).length > (strip ([] : Str)).length then
            autoLoop ocr det
              ["deu", "spa", "fra", "ita", "por", "rus", "jpn", "chi_sim",
                "ara"] (strip t) "eng"
          else autoLoop ocr det
            ["deu", "spa", "fra", "ita", "por", "rus", "jpn", "chi_sim",
              "ara"] [] "eng"
        else autoLoop ocr det
          ["deu", "spa", "fra", "ita", "por", "rus", "jpn", "chi_sim", "ara"]
          [] "eng"
      else autoLoop ocr det
        ["deu", "spa", "fra", "ita", "por", "rus", "jpn", "chi_sim", "ara"]
        [] "eng") = some (strip t, "eng")
    rw [if_pos hz, if_pos h2, if_pos h3]
  · show ocrCalls ocr det ("eng" ::
      ["deu", "spa", "fra", "ita", "por", "rus", "jpn", "chi_sim", "ara"])
      [] = _
    rw [ocrCalls.eq_2, h1]
    show "eng" :: (if (strip t).length > (strip ([] : Str)).length then
        if (strip t).length > 20 then
          if det t then []
          else if (strip t).length > (strip ([] : Str)).length then
            ocrCalls ocr det
              ["deu", "spa", "fra", "ita", "por", "rus", "jpn", "chi_sim",
                "ara"] (strip t)
          else ocrCalls ocr det
            ["deu", "spa", "fra", "ita", "por", "rus", "jpn", "chi_sim",
              "ara"] []
        else ocrCalls ocr det
          ["deu", "spa", "fra", "ita", "por", "rus", "jpn", "chi_sim", "ara"]
          []
      else ocrCalls ocr det
        ["deu", "spa", "fra", "ita", "por", "rus", "jpn", "chi_sim", "ara"]
        []) = ["eng"]
    rw [if_pos hz, if_pos h2, if_pos h3]

/-- An OCR function returning 30 characters for every language, for the
`C6_early_exit` witness. -/
def ocrW6 : String → Option Str := fun _ => some (List.replicate 30 'x')

/-- Witness for `C6_early_exit` at concrete OCR results. -/
theorem C6_early_exit_witness :
    auto_detect_and_extract ocrW6 (fun _ => true) =
        some (strip (List.replicate 30 'x'), "eng") ∧
      auto_detect_calls ocrW6 (fun _ => true) = ["eng"] :=
  C6_early_exit ocrW6 (fun _ => true) _ rfl (by decide) rfl

/-! ### Claim C7 -/

/-- Claim C7: when every candidate's OCR raises (`none`) or returns
whitespace-only text (stripped length 0), every per-candidate failure is
swallowed without aborting the loop, and the detector re-runs OCR once
with the default `"eng"`, returning its stripped result (possibly empty)
paired with `"eng"`; the overall call raises (`none`) only when that
fallback OCR call itself raises. -/
theorem C7_fallback (ocr : String → Option Str) (det : Str → Bool)
    (h : ∀ lang ∈ priority_languages, ocr lang = none ∨
      ∃ t, ocr lang = some t ∧ (strip t).length = 0) :
    auto_detect_and_extract ocr det =
      (ocr "eng").map (fun t => (strip t, "eng")) :=
  autoLoop_all_empty ocr det priority_languages h "eng"

/-- An OCR function that raises for `"spa"` and returns a single space for
every other language, for the `C7_fallback` witness. -/
def ocrW7 : String → Option Str := fun lang =>
  if lang = "spa" then none else some [' ']

/-- Witness for `C7_fallback`: with `ocrW7`, the detector returns the
empty `"eng"` fallback result without raising. -/
theorem C7_fallback_witness :
    auto_detect_and_extract ocrW7 (fun _ => false) = some ([], "eng") := by
  rw [C7_fallback ocrW7 (fun _ => false) ?_]
  · rfl
  · intro lang _
    by_cases hsp : lang = "spa"
    · exact Or.inl (by rw [ocrW7, if_pos hsp])
    · exact Or.inr ⟨[' '], by rw [ocrW7, if_neg hsp], rfl⟩

/-! ### Claim C10 -/

/-- Claim C10: `detect_language_advanced` always returns a (name, code)
pair and never raises: a raising underlying detection yields
`("English", "en")`, and a detected code outside `lang_map` is mapped to
the name `"English"` (paired with the raw detected code). -/
theorem C10_detect_total (d : Str → Option String) (text : Str) :
    (d text = none → detect_language_advanced d text = ("English", "en")) ∧
      (∀ code, d text = some code → lang_map.lookup code = none →
        detect_language_advanced d text = ("English", code)) := by
  constructor
  · intro h
    rw [detect_language_advanced, h]
  · intro code hc hl
    rw [detect_language_advanced, hc]
    simp only [hl, Option.getD_none]

/-- Witness for `C10_detect_total`: a detection returning the unmapped
code `"xx"` yields the name `"English"` with that code. -/
theorem C10_detect_total_witness :
    detect_language_advanced (fun _ => some "xx") ['h', 'i'] =
      ("English", "xx") :=
  (C10_detect_total (fun _ => some "xx") ['h', 'i']).2 "xx" rfl (by decide)

end TTS
